import Mathlib

/-!
# Ownership-label admission webhook (`cmd/webhook`)

A shallow embedding of the decision logic of `mutating_webhook.go` and
`main.go`: the scope test `IsInOwnerList`, the two patch builders, the owner
resolver `getOwnerObjLabel` / `getOwnerReferenceLabels` and the decision
procedure `onMutate`.  Go strings are Lean strings, Go errors are their
messages, Go maps are association lists (with `none` for the nil map).

The package-level declarations that the sources use but do not define
(`labelKey`, `owners`, `OwnerToLabelValue`, `OwnerFromLabelValue`,
`toV1AdmissionResponse`) and the cluster behind `GetObjectLabels` are the
fields of `Env`.
-/

namespace Guardrails

/-! ## Go maps -/

/-- Entries of a Go `map[string]string`. -/
abbrev StrMap := List (String × String)

/-- Value stored under `k`, if any. -/
def StrMap.find : StrMap → String → Option String
  | [], _ => none
  | (a, b) :: rest, k => if a = k then some b else StrMap.find rest k

/-- Map assignment `m[k] = v`. -/
def StrMap.set (m : StrMap) (k v : String) : StrMap :=
  (k, v) :: m.filter (fun p => decide (p.1 ≠ k))

/-- Go's two-valued index expression `v, ok := m[k]`; a nil map has no entries. -/
def goIndex (m : Option StrMap) (k : String) : String × Bool :=
  match m with
  | none => ("", false)
  | some l =>
    match l.find k with
    | some v => (v, true)
    | none => ("", false)

/-- Go's `len(m)`; zero for the nil map. -/
def goLen (m : Option StrMap) : Nat :=
  match m with
  | none => 0
  | some l => l.length

/-! ## Kubernetes API types (the fields the webhook reads or writes) -/

/-- The `metav1.OwnerReference` fields used by the lookup. -/
structure OwnerReference where
  apiVersion : String
  kind : String
  name : String
  deriving DecidableEq, Repr

/-- The `metav1.ObjectMeta` fields used by the webhook. -/
structure ObjectMeta where
  labels : Option StrMap
  annotations : Option StrMap
  ownerReferences : List OwnerReference
  deriving DecidableEq, Repr

/-- A `runtime.RawExtension` as `json.Unmarshal` sees it: bytes that do not
decode (with the decoder's message), or a document with its metadata. -/
inductive RawExtension where
  | malformed (err : String)
  | document (metadata : ObjectMeta)
  deriving DecidableEq, Repr

/-- Decoding step `json.Unmarshal(raw, &obj)` of `onMutate`. -/
def unmarshal : RawExtension → Except String ObjectMeta
  | .malformed err => .error err
  | .document metadata => .ok metadata

/-- Kubernetes `metav1.GroupVersionKind`. -/
structure GroupVersionKind where
  group : String
  version : String
  kind : String
  deriving DecidableEq, Repr

/-- Kubernetes `authenticationv1.UserInfo` (the user name only). -/
structure UserInfo where
  username : String
  deriving DecidableEq, Repr

/-- Admission operations are strings in the API. -/
abbrev Operation := String

/-- Constant `v1.Create`. -/
def Create : Operation := "CREATE"
/-- Constant `v1.Update`. -/
def Update : Operation := "UPDATE"
/-- Constant `v1.Delete`. -/
def Delete : Operation := "DELETE"

/-- The `v1.AdmissionRequest` fields used by the webhook. -/
structure AdmissionRequest where
  kind : GroupVersionKind
  Namespace : String
  operation : Operation
  userInfo : UserInfo
  object : RawExtension
  oldObject : RawExtension
  deriving DecidableEq, Repr

/-- Kubernetes `v1.AdmissionReview`. -/
structure AdmissionReview where
  request : AdmissionRequest
  deriving DecidableEq, Repr

/-- The `metav1.Status` fields the webhook sets. -/
structure Status where
  code : Nat
  reason : String
  message : String
  deriving DecidableEq, Repr

/-- Kubernetes `v1.PatchType`. -/
inductive PatchType where
  | JSONPatch
  deriving DecidableEq, Repr

/-- Kubernetes `v1.AdmissionResponse`. -/
structure AdmissionResponse where
  allowed : Bool
  result : Option Status
  patch : Option String
  patchType : Option PatchType
  deriving DecidableEq, Repr

/-- Package-level declarations used by the webhook and defined elsewhere,
together with the cluster queried through `GetObjectLabels`. -/
structure Env where
  /-- Package constant `labelKey`. -/
  labelKey : String
  /-- Package variable `owners`, filled from the `--owner` flag. -/
  owners : List String
  /-- Encoding of a principal as a label value. -/
  OwnerToLabelValue : String → String
  /-- Decoding of a label value into a principal. -/
  OwnerFromLabelValue : String → String
  /-- Response built from an error. -/
  toV1AdmissionResponse : String → AdmissionResponse
  /-- Outcome of `GetObjectLabels apiVersion kind Namespace name`. -/
  GetObjectLabels : String → String → String → String → Except String (Option StrMap)

/-! ## `main.go` -/

/-- Go `IsInOwnerList`: linear scan of `owners` for an exact match. -/
def IsInOwnerList : List String → String → Bool
  | [], _ => false
  | v :: rest, userName => if v = userName then true else IsInOwnerList rest userName

/-! ## `mutating_webhook.go` -/

/-- Go `strings.ReplaceAll(s, "/", "~1")`. -/
def replaceAllSlash : List Char → List Char
  | [] => []
  | c :: cs => if c = '/' then '~' :: '1' :: replaceAllSlash cs else c :: replaceAllSlash cs

/-- Go `getFirstLabelPatch`. -/
def getFirstLabelPatch (env : Env) (labelValue : String) : String :=
  "[\n\t\t\x7b \"op\": \"add\", \"path\": \"/metadata/labels\", \"value\": \x7b\""
    ++ env.labelKey ++ "\": \"" ++ labelValue ++ "\"\x7d\x7d\n\t]"

/-- Go `getAdditionalLabelPatch`. -/
def getAdditionalLabelPatch (env : Env) (labelValue : String) : String :=
  "[\n\t\t\x7b \"op\": \"add\", \"path\": \"/metadata/labels/"
    ++ String.mk (replaceAllSlash env.labelKey.data) ++ "\", \"value\": \""
    ++ labelValue ++ "\" \x7d\n\t]"

/-- Go `getOwnerReferenceLabels` (the package variable's initial value). -/
def getOwnerReferenceLabels (env : Env) (ownerReference : List OwnerReference)
    (Namespace : String) : Except String (Option StrMap) :=
  match ownerReference with
  | [] => .error "no owners found"
  | firstOwner :: _ =>
    match env.GetObjectLabels firstOwner.apiVersion firstOwner.kind Namespace firstOwner.name with
    | .error err => .error ("failed to get owner labels: " ++ err)
    | .ok labels => .ok labels

/-- Go `getOwnerObjLabel`; the third component is the returned error
(`none` for nil). -/
def getOwnerObjLabel (env : Env) (metadata : ObjectMeta) (request : AdmissionRequest) :
    String × Bool × Option String :=
  if metadata.ownerReferences.length > 0 then
    match getOwnerReferenceLabels env metadata.ownerReferences request.Namespace with
    | .error err => ("", false, some err)
    | .ok ownerReferenceLabels =>
      let ownerReferenceLabel := (goIndex ownerReferenceLabels env.labelKey).1
      (ownerReferenceLabel, IsInOwnerList env.owners (env.OwnerFromLabelValue ownerReferenceLabel), none)
  else
    match goIndex metadata.annotations "kubernetes.io/service-account.name" with
    | (serviceAccountName, ok) =>
      if request.kind.kind = "Secret" ∧ ok = true then
        let serviceAccountOwnerRef : OwnerReference :=
          { apiVersion := "v1", kind := "ServiceAccount", name := serviceAccountName }
        match getOwnerReferenceLabels env [serviceAccountOwnerRef] request.Namespace with
        | .error err => ("", false, some err)
        | .ok ownerReferenceLabels =>
          let ownerReferenceLabel := (goIndex ownerReferenceLabels env.labelKey).1
          (ownerReferenceLabel,
            IsInOwnerList env.owners (env.OwnerFromLabelValue ownerReferenceLabel), none)
      else ("", false, none)

/-- The response `onMutate` starts from: allowed, nothing else set. -/
def reviewResponse : AdmissionResponse :=
  { allowed := true, result := none, patch := none, patchType := none }

/-- A denial: `Allowed = false` and a `Status` with code 403 and the reason. -/
def deny (reason : String) : AdmissionResponse :=
  { reviewResponse with
    allowed := false
    result := some { code := 403, reason := reason, message := "" } }

/-- The bytes `onMutate` decodes (the `raw` variable): the old object of a
DELETE, the object of every other operation. -/
def rawObject (ar : AdmissionReview) : RawExtension :=
  if ar.request.operation = Delete then ar.request.oldObject else ar.request.object

/-- The owner `onMutate` labels a created object with (its variables
`ownerLabelValue`, `isInScope` and `err` when the label switch is reached):
the principal's own token when the principal is in scope, otherwise whatever
`getOwnerObjLabel` finds. -/
def resolveOwner (env : Env) (obj : ObjectMeta) (request : AdmissionRequest) :
    String × Bool × Option String :=
  if !IsInOwnerList env.owners request.userInfo.username then getOwnerObjLabel env obj request
  else (env.OwnerToLabelValue request.userInfo.username, true, none)

/-- Go `onMutate`. -/
def onMutate (env : Env) (ar : AdmissionReview) : AdmissionResponse :=
  match unmarshal (rawObject ar) with
  | .error err => env.toV1AdmissionResponse err
  | .ok obj =>
    let identity := ar.request.userInfo.username
    let isInScope := IsInOwnerList env.owners identity
    let ownerLabelValue := env.OwnerToLabelValue identity
    let labelValue := (goIndex obj.labels env.labelKey).1
    let hasLabel := (goIndex obj.labels env.labelKey).2
    if ar.request.operation ≠ Create then
      if isInScope then
        if !hasLabel then
          deny (identity ++ " not allowed to " ++ ar.request.operation
            ++ " a resource without the " ++ env.labelKey ++ " label.")
        else if labelValue ≠ ownerLabelValue then
          deny (identity ++ " not allowed to " ++ ar.request.operation
            ++ " a resource with another owner in label " ++ env.labelKey ++ "="
            ++ labelValue ++ ".")
        else reviewResponse
      else reviewResponse
    else
      match resolveOwner env obj ar.request with
      | (_, _, some err) => env.toV1AdmissionResponse err
      | (ownerLabelValue, isInScope, none) =>
        if !isInScope then reviewResponse
        else if goLen obj.labels = 0 then
          { reviewResponse with
            patch := some (getFirstLabelPatch env ownerLabelValue)
            patchType := some PatchType.JSONPatch }
        else if !hasLabel then
          { reviewResponse with
            patch := some (getAdditionalLabelPatch env ownerLabelValue)
            patchType := some PatchType.JSONPatch }
        else if labelValue ≠ ownerLabelValue then
          deny (ar.request.userInfo.username
            ++ " not allowed to create a resources with another owner in label "
            ++ env.labelKey ++ "=" ++ labelValue ++ ".")
        else reviewResponse

/-! ## JSON documents (RFC 8259) and JSON Patch (RFC 6902)

The patch is handed to a JSON-Patch applier as text.  What follows is the
reading of that text: a lexer and a parser for JSON, the decoding of a patch
document into operations, JSON-Pointer paths, and the effect of `add` on the
labels of an object. -/

/-- JSON tokens; `bare` is the text of a number or of a literal name. -/
inductive Token where
  | lbracket
  | rbracket
  | lbrace
  | rbrace
  | colon
  | comma
  | str (s : String)
  | bare (s : String)
  deriving DecidableEq, Repr

/-- Lexer modes: between tokens, inside a string, after a backslash, inside
the four hex digits of a unicode escape, inside a number or literal name. -/
inductive LexMode where
  | idle
  | inStr (acc : List Char)
  | esc (acc : List Char)
  | uni (acc : List Char) (digits : List Char)
  | word (acc : List Char)
  deriving DecidableEq, Repr

/-- JSON insignificant whitespace. -/
def isJsonSpace (c : Char) : Bool :=
  c = ' ' || c = '\n' || c = '\t' || c = '\r'

/-- Characters of numbers and literal names. -/
def isWordChar (c : Char) : Bool :=
  c.isAlphanum || c = '-' || c = '+' || c = '.'

/-- Value of a hexadecimal digit. -/
def hexDigit (c : Char) : Option Nat :=
  if c.isDigit then some (c.toNat - '0'.toNat)
  else if 'a'.toNat ≤ c.toNat ∧ c.toNat ≤ 'f'.toNat then some (c.toNat - 'a'.toNat + 10)
  else if 'A'.toNat ≤ c.toNat ∧ c.toNat ≤ 'F'.toNat then some (c.toNat - 'A'.toNat + 10)
  else none

/-- Value of a sequence of hexadecimal digits. -/
def hexValue : List Char → Nat → Option Nat
  | [], n => some n
  | c :: cs, n =>
    match hexDigit c with
    | none => none
    | some d => hexValue cs (16 * n + d)

/-- One character read between tokens; tokens are collected newest first. -/
def lexIdle (toks : List Token) (c : Char) : Option (LexMode × List Token) :=
  if isJsonSpace c then some (.idle, toks)
  else if c = '[' then some (.idle, .lbracket :: toks)
  else if c = ']' then some (.idle, .rbracket :: toks)
  else if c = '\x7b' then some (.idle, .lbrace :: toks)
  else if c = '\x7d' then some (.idle, .rbrace :: toks)
  else if c = ':' then some (.idle, .colon :: toks)
  else if c = ',' then some (.idle, .comma :: toks)
  else if c = '"' then some (.inStr [], toks)
  else if isWordChar c then some (.word [c], toks)
  else none

/-- One step of the lexer. -/
def lexStep : LexMode × List Token → Char → Option (LexMode × List Token)
  | (.idle, toks), c => lexIdle toks c
  | (.inStr acc, toks), c =>
    if c = '"' then some (.idle, .str (String.mk acc) :: toks)
    else if c = '\\' then some (.esc acc, toks)
    else if c.toNat < 32 then none
    else some (.inStr (acc ++ [c]), toks)
  | (.esc acc, toks), c =>
    if c = '"' then some (.inStr (acc ++ ['"']), toks)
    else if c = '\\' then some (.inStr (acc ++ ['\\']), toks)
    else if c = '/' then some (.inStr (acc ++ ['/']), toks)
    else if c = 'b' then some (.inStr (acc ++ [Char.ofNat 8]), toks)
    else if c = 'f' then some (.inStr (acc ++ [Char.ofNat 12]), toks)
    else if c = 'n' then some (.inStr (acc ++ ['\n']), toks)
    else if c = 'r' then some (.inStr (acc ++ ['\r']), toks)
    else if c = 't' then some (.inStr (acc ++ ['\t']), toks)
    else if c = 'u' then some (.uni acc [], toks)
    else none
  | (.uni acc digits, toks), c =>
    if digits.length < 3 then
      match hexDigit c with
      | none => none
      | some _ => some (.uni acc (digits ++ [c]), toks)
    else
      match hexValue (digits ++ [c]) 0 with
      | none => none
      | some n => some (.inStr (acc ++ [Char.ofNat n]), toks)
  | (.word acc, toks), c =>
    if isWordChar c then some (.word (acc ++ [c]), toks)
    else lexIdle (.bare (String.mk acc) :: toks) c

/-- The lexer run over a text. -/
def lexRun : LexMode × List Token → List Char → Option (LexMode × List Token)
  | st, [] => some st
  | st, c :: cs =>
    match lexStep st c with
    | none => none
    | some st' => lexRun st' cs

/-- Tokens of a JSON text, in order; `none` when the text is not made of
JSON tokens. -/
def tokenize (s : String) : Option (List Token) :=
  match lexRun (.idle, []) s.data with
  | some (.idle, toks) => some toks.reverse
  | some (.word acc, toks) => some (Token.bare (String.mk acc) :: toks).reverse
  | _ => none

/-- JSON values; a number keeps its text. -/
inductive Json where
  | null
  | bool (b : Bool)
  | num (text : String)
  | str (s : String)
  | arr (items : List Json)
  | obj (members : List (String × Json))

/-- Digits only, at least one. -/
def isDigits (cs : List Char) : Bool :=
  !cs.isEmpty && cs.all Char.isDigit

/-- Optional exponent part of a JSON number. -/
def isExponent : List Char → Bool
  | [] => true
  | e :: cs =>
    (e = 'e' || e = 'E') &&
      (match cs with
       | '+' :: ds => isDigits ds
       | '-' :: ds => isDigits ds
       | ds => isDigits ds)

/-- Optional fraction part of a JSON number, then the exponent. -/
def isFraction : List Char → Bool
  | '.' :: cs => isDigits (cs.takeWhile Char.isDigit) && isExponent (cs.dropWhile Char.isDigit)
  | cs => isExponent cs

/-- Integer part of a JSON number (no leading zero), then the rest. -/
def isUnsigned : List Char → Bool
  | '0' :: cs => isFraction cs
  | cs => isDigits (cs.takeWhile Char.isDigit) && isFraction (cs.dropWhile Char.isDigit)

/-- JSON number grammar. -/
def isNumber : List Char → Bool
  | '-' :: cs => isUnsigned cs
  | cs => isUnsigned cs

/-- Value of a bare token. -/
def bareValue (w : String) : Option Json :=
  if w = "null" then some .null
  else if w = "true" then some (.bool true)
  else if w = "false" then some (.bool false)
  else if isNumber w.data then some (.num w)
  else none

mutual
/-- One JSON value at the head of the tokens, and the tokens after it. -/
def parseValue : Nat → List Token → Option (Json × List Token)
  | 0, _ => none
  | _ + 1, [] => none
  | _ + 1, .str s :: ts => some (.str s, ts)
  | _ + 1, .bare w :: ts =>
    match bareValue w with
    | none => none
    | some v => some (v, ts)
  | _ + 1, .lbracket :: .rbracket :: ts => some (.arr [], ts)
  | n + 1, .lbracket :: ts => parseItems n [] ts
  | _ + 1, .lbrace :: .rbrace :: ts => some (.obj [], ts)
  | n + 1, .lbrace :: ts => parseMembers n [] ts
  | _ + 1, _ :: _ => none
/-- The items of a non-empty array, after the opening bracket or a comma. -/
def parseItems : Nat → List Json → List Token → Option (Json × List Token)
  | 0, _, _ => none
  | n + 1, acc, ts =>
    match parseValue n ts with
    | none => none
    | some (v, .comma :: rest) => parseItems n (acc ++ [v]) rest
    | some (v, .rbracket :: rest) => some (.arr (acc ++ [v]), rest)
    | some _ => none
/-- The members of a non-empty object, after the opening brace or a comma. -/
def parseMembers : Nat → List (String × Json) → List Token → Option (Json × List Token)
  | 0, _, _ => none
  | n + 1, acc, .str k :: .colon :: ts =>
    match parseValue n ts with
    | none => none
    | some (v, .comma :: rest) => parseMembers n (acc ++ [(k, v)]) rest
    | some (v, .rbrace :: rest) => some (.obj (acc ++ [(k, v)]), rest)
    | some _ => none
  | _ + 1, _, _ => none
end

/-- A whole JSON text: one value and nothing after it. -/
def parseJson (s : String) : Option Json :=
  match tokenize s with
  | none => none
  | some toks =>
    match parseValue (2 * toks.length + 2) toks with
    | some (v, []) => some v
    | _ => none

/-- Member `k` of a JSON object; of several members with one name the last
one counts, as when the object is decoded into a Go map. -/
def memberOf : List (String × Json) → String → Option Json
  | [], _ => none
  | (a, v) :: rest, k =>
    match memberOf rest k with
    | some w => some w
    | none => if a = k then some v else none

/-- One operation of a patch document: the members of its JSON object. -/
abbrev PatchOperation := List (String × Json)

/-- The operations of a JSON array of objects. -/
def operationsOf : List Json → Option (List PatchOperation)
  | [] => some []
  | .obj members :: rest =>
    match operationsOf rest with
    | none => none
    | some ops => some (members :: ops)
  | _ :: _ => none

/-- Decoding of a patch document: a JSON array whose items are objects. -/
def decodePatch (doc : String) : Option (List PatchOperation) :=
  match parseJson doc with
  | some (.arr items) => operationsOf items
  | _ => none

/-- Decoding of one JSON-Pointer reference token (RFC 6901): `~1` is `/`
and `~0` is `~`, read left to right. -/
def decodePatchKey : List Char → List Char
  | [] => []
  | '~' :: '1' :: cs => '/' :: decodePatchKey cs
  | '~' :: '0' :: cs => '~' :: decodePatchKey cs
  | c :: cs => c :: decodePatchKey cs

/-- Whether the text holds a `~` followed by `0` or `1`, the two escape
sequences of a JSON-Pointer reference token. -/
def hasPointerEscape : List Char → Bool
  | [] => false
  | '~' :: '0' :: _ => true
  | '~' :: '1' :: _ => true
  | _ :: cs => hasPointerEscape cs

/-- Go `strings.Split(path, "/")`. -/
def splitSlash : List Char → List (List Char)
  | [] => [[]]
  | c :: cs =>
    if c = '/' then [] :: splitSlash cs
    else
      match splitSlash cs with
      | [] => [[c]]
      | seg :: rest => (c :: seg) :: rest

/-- The reference tokens of a path: the segments after the first `/`, decoded. -/
def pointerTokens (path : String) : List String :=
  ((splitSlash path.data).drop 1).map (fun seg => String.mk (decodePatchKey seg))

/-- A JSON object of strings as a label map, members taken in order. -/
def labelsOfMembers : List (String × Json) → StrMap → Option StrMap
  | [], acc => some acc
  | (k, .str v) :: rest, acc => labelsOfMembers rest (acc.set k v)
  | _ :: _, _ => none

/-- A JSON value as the `labels` field: `null` is the nil map, an object of
strings is a map, nothing else decodes. -/
def labelsOfJson : Json → Option (Option StrMap)
  | .null => some none
  | .obj members =>
    match labelsOfMembers members [] with
    | none => none
    | some m => some (some m)
  | _ => none

/-- Effect of `add` at `path` on the metadata of an object.  Only the paths
`/metadata/labels` and `/metadata/labels/<key>` are followed (the webhook
writes no other); adding below `labels` needs the map to exist. -/
def applyAdd (metadata : ObjectMeta) (path : String) (value : Json) : Except String ObjectMeta :=
  match pointerTokens path with
  | ["metadata", "labels"] =>
    match labelsOfJson value with
    | none => .error "labels must be an object of strings"
    | some labels => .ok { metadata with labels := labels }
  | ["metadata", "labels", key] =>
    match metadata.labels, value with
    | none, _ => .error "add operation does not apply: doc is missing path"
    | some labels, .str v => .ok { metadata with labels := some (labels.set key v) }
    | some _, _ => .error "label values must be strings"
  | _ => .error "path outside metadata.labels"

/-- Effect of one operation; only `add` is followed. -/
def applyOperation (metadata : ObjectMeta) (op : PatchOperation) : Except String ObjectMeta :=
  match memberOf op "op", memberOf op "path", memberOf op "value" with
  | some (.str kind), some (.str path), some value =>
    if kind = "add" then applyAdd metadata path value
    else .error "operation other than add"
  | _, _, _ => .error "operation without op, path or value"

/-- Effect of the operations, in order, stopping at the first failure. -/
def applyOperations : List PatchOperation → ObjectMeta → Except String ObjectMeta
  | [], metadata => .ok metadata
  | op :: rest, metadata =>
    match applyOperation metadata op with
    | .error e => .error e
    | .ok next => applyOperations rest next

/-- A patch document decoded and applied to the metadata of an object. -/
def applyPatch (doc : String) (metadata : ObjectMeta) : Except String ObjectMeta :=
  match decodePatch doc with
  | none => .error "invalid JSON patch document"
  | some ops => applyOperations ops metadata

/-- Text that stands for itself inside a JSON string: no quotation mark, no
backslash, no control character. -/
def isPlainText (cs : List Char) : Bool :=
  cs.all (fun c => decide (c ≠ '"') && decide (c ≠ '\\') && decide (32 ≤ c.toNat))

/-! ## Sample configuration and requests

The configuration of `TestOnMutate` (`owners = ["admin"]`, tokens equal to
principals) over a small cluster, and requests in the shape the test builds. -/

/-- An error response in the usual shape: not allowed, the message in the status. -/
def sampleErrorResponse (err : String) : AdmissionResponse :=
  { allowed := false, result := some (Status.mk 0 "" err), patch := none, patchType := none }

/-- A cluster with one labelled Deployment, one labelled ServiceAccount and
one unlabelled ConfigMap; every other lookup fails. -/
def sampleCluster (apiVersion kind _ns name : String) : Except String (Option StrMap) :=
  if apiVersion = "apps/v1" ∧ kind = "Deployment" ∧ name = "web" then .ok (some [("owner", "admin")])
  else if apiVersion = "v1" ∧ kind = "ServiceAccount" ∧ name = "sa" then .ok (some [("owner", "admin")])
  else if apiVersion = "v1" ∧ kind = "ConfigMap" ∧ name = "cm" then .ok none
  else .error "failed to get owner object: not found"

/-- Sample environment: label key `owner`, the single owner `admin`. -/
def sampleEnv : Env where
  labelKey := "owner"
  owners := ["admin"]
  OwnerToLabelValue := fun owner => owner
  OwnerFromLabelValue := fun value => value
  toV1AdmissionResponse := sampleErrorResponse
  GetObjectLabels := sampleCluster

/-- The sample environment with a label key that holds the text `~1`. -/
def sampleEnvTilde : Env :=
  { sampleEnv with labelKey := "a~1b" }

/-- Metadata with the given labels and nothing else. -/
def labelled (labels : Option StrMap) : ObjectMeta :=
  { labels := labels, annotations := none, ownerReferences := [] }

/-- Metadata with the given labels and owner references. -/
def ownedBy (labels : Option StrMap) (refs : List OwnerReference) : ObjectMeta :=
  { labels := labels, annotations := none, ownerReferences := refs }

/-- Metadata with the given labels and the service-account name of a token Secret. -/
def boundTo (labels : Option StrMap) (account : String) : ObjectMeta :=
  { labels := labels
    annotations := some [("kubernetes.io/service-account.name", account)]
    ownerReferences := [] }

/-- Reference to the Deployment of `sampleCluster`, owned by `admin`. -/
def deploymentRef : OwnerReference :=
  { apiVersion := "apps/v1", kind := "Deployment", name := "web" }

/-- Reference to the ConfigMap of `sampleCluster`, which has no labels. -/
def configMapRef : OwnerReference :=
  { apiVersion := "v1", kind := "ConfigMap", name := "cm" }

/-- Reference to an object that `sampleCluster` does not have. -/
def missingRef : OwnerReference :=
  { apiVersion := "v1", kind := "Pod", name := "gone" }

/-- A request on an object of the given kind, built as `TestOnMutate` builds
its requests: the metadata goes into the old object for DELETE and into the
object otherwise, the other one stays empty. -/
def reviewOf (kind : String) (operation : Operation) (username : String)
    (metadata : ObjectMeta) : AdmissionReview :=
  { request :=
    { kind := { group := "", version := "v1", kind := kind }
      Namespace := "default"
      operation := operation
      userInfo := { username := username }
      object := if operation = Delete then .malformed "unexpected end of JSON input"
                else .document metadata
      oldObject := if operation = Delete then .document metadata
                   else .malformed "unexpected end of JSON input" } }

/-- A request on a Secret, the kind `TestOnMutate` uses. -/
def sampleReview (operation : Operation) (username : String) (metadata : ObjectMeta) :
    AdmissionReview :=
  reviewOf "Secret" operation username metadata

/-! ## Reading the patch documents

The lexer on text that needs no escaping, and from there the operations the
two patch documents decode to and their effect on the labels. -/


/-- The lexer over a concatenation runs over the first part, then over the second. -/
theorem lexRun_append (st : LexMode × List Token) (a b : List Char) :
    lexRun st (a ++ b) = (lexRun st a).bind (fun st' => lexRun st' b) := by
  induction a generalizing st with
  | nil => simp [lexRun]
  | cons c cs ih =>
    simp only [List.cons_append, lexRun]
    cases lexStep st c with
    | none => simp
    | some st' => simpa using ih st'

/-- Inside a string, plain text is collected character by character. -/
theorem lexRun_plain (cs acc : List Char) (toks : List Token) (h : isPlainText cs = true) :
    lexRun (.inStr acc, toks) cs = some (.inStr (acc ++ cs), toks) := by
  induction cs generalizing acc with
  | nil => simp [lexRun]
  | cons c cs ih =>
    simp only [isPlainText, List.all_cons, Bool.and_eq_true, decide_eq_true_eq] at h
    obtain ⟨⟨⟨h1, h2⟩, h3⟩, h4⟩ := h
    have h3' : ¬ c.toNat < 32 := by omega
    simp only [lexRun, lexStep, h1, h2, h3', if_false]
    rw [ih (acc ++ [c]) h4]
    simp

/-- Tokens of the first-label patch for a plain key and value. -/
theorem tokenize_getFirstLabelPatch (env : Env) (v : String)
    (hk : isPlainText env.labelKey.data = true) (hv : isPlainText v.data = true) :
    tokenize (getFirstLabelPatch env v) = some
      [.lbracket, .lbrace, .str "op", .colon, .str "add", .comma, .str "path", .colon,
       .str "/metadata/labels", .comma, .str "value", .colon,
       .lbrace, .str env.labelKey, .colon, .str v, .rbrace, .rbrace, .rbracket] := by
  unfold tokenize getFirstLabelPatch
  simp only [String.data_append]
  rw [lexRun_append, lexRun_append, lexRun_append, lexRun_append]
  have h1 : lexRun (.idle, []) "[\n\t\t\x7b \"op\": \"add\", \"path\": \"/metadata/labels\", \"value\": \x7b\"".data
      = some (.inStr [], [.lbrace, .colon, .str "value", .comma, .str "/metadata/labels", .colon, .str "path", .comma, .str "add", .colon, .str "op", .lbrace, .lbracket]) := by decide
  rw [h1]
  simp only [Option.bind_some, Option.some_bind]
  rw [lexRun_plain _ _ _ hk]
  simp only [Option.bind_some, Option.some_bind, List.nil_append]
  have h2 : ∀ acc toks, lexRun (.inStr acc, toks) "\": \"".data
      = some (.inStr [], .colon :: .str (String.mk acc) :: toks) := by
    intro acc toks
    simp [lexRun, lexStep, lexIdle, isJsonSpace]
  rw [h2]
  simp only [Option.bind_some, Option.some_bind]
  rw [lexRun_plain _ _ _ hv]
  simp only [Option.bind_some, Option.some_bind, List.nil_append]
  have h3 : ∀ acc toks, lexRun (.inStr acc, toks) "\"\x7d\x7d\n\t]".data
      = some (.idle, .rbracket :: .rbrace :: .rbrace :: .str (String.mk acc) :: toks) := by
    intro acc toks
    simp [lexRun, lexStep, lexIdle, isJsonSpace]
  rw [h3]
  rfl

/-- The first-label patch decodes to one `add` of the singleton map at `/metadata/labels`. -/
theorem decodePatch_getFirstLabelPatch (env : Env) (v : String)
    (hk : isPlainText env.labelKey.data = true) (hv : isPlainText v.data = true) :
    decodePatch (getFirstLabelPatch env v) = some
      [[("op", .str "add"), ("path", .str "/metadata/labels"),
        ("value", .obj [(env.labelKey, .str v)])]] := by
  unfold decodePatch parseJson
  rw [tokenize_getFirstLabelPatch env v hk hv]
  rfl

/-- The first-label patch replaces the labels by the singleton map. -/
theorem applyPatch_getFirstLabelPatch (env : Env) (v : String) (metadata : ObjectMeta)
    (hk : isPlainText env.labelKey.data = true) (hv : isPlainText v.data = true) :
    applyPatch (getFirstLabelPatch env v) metadata
      = .ok { metadata with labels := some [(env.labelKey, v)] } := by
  unfold applyPatch
  rw [decodePatch_getFirstLabelPatch env v hk hv]
  rfl

/-- Escaping the slashes of plain text leaves it plain. -/
theorem isPlainText_replaceAllSlash (cs : List Char) (h : isPlainText cs = true) :
    isPlainText (replaceAllSlash cs) = true := by
  induction cs with
  | nil => simpa [replaceAllSlash] using h
  | cons c cs ih =>
    simp only [isPlainText, List.all_cons, Bool.and_eq_true] at h
    have ih' := ih (by simpa [isPlainText] using h.2)
    by_cases hc : c = '/'
    · subst hc
      simp only [replaceAllSlash, if_true]
      simp only [isPlainText, List.all_cons, Bool.and_eq_true]
      exact ⟨by decide, by decide, by simpa [isPlainText] using ih'⟩
    · simp only [replaceAllSlash, hc, if_false]
      simp only [isPlainText, List.all_cons, Bool.and_eq_true]
      exact ⟨h.1, by simpa [isPlainText] using ih'⟩

/-- An escaped key is a single path segment. -/
theorem splitSlash_replaceAllSlash (cs : List Char) :
    splitSlash (replaceAllSlash cs) = [replaceAllSlash cs] := by
  induction cs with
  | nil => rfl
  | cons c cs ih =>
    by_cases hc : c = '/'
    · subst hc
      simp only [replaceAllSlash, if_true]
      simp [splitSlash, ih]
    · simp only [replaceAllSlash, hc, if_false]
      simp [splitSlash, hc, ih]

/-- A key without `~` is recovered from its escaped form. -/
theorem decodePatchKey_replaceAllSlash (cs : List Char) (h : '~' ∉ cs) :
    decodePatchKey (replaceAllSlash cs) = cs := by
  induction cs with
  | nil => rfl
  | cons c cs ih =>
    have hc : c ≠ '~' := fun e => h (by simp [e])
    have ih' := ih (fun m => h (List.mem_cons_of_mem _ m))
    by_cases hs : c = '/'
    · subst hs
      simp only [replaceAllSlash, if_true, decodePatchKey, ih']
    · simp only [replaceAllSlash, hs, if_false]
      rw [decodePatchKey]
      · rw [ih']
      · intro cs' e; exact absurd e hc
      · intro cs' e; exact absurd e hc

/-- Tokens of the additional-label patch for a plain key and value. -/
theorem tokenize_getAdditionalLabelPatch (env : Env) (v : String)
    (hk : isPlainText env.labelKey.data = true) (hv : isPlainText v.data = true) :
    tokenize (getAdditionalLabelPatch env v) = some
      [.lbracket, .lbrace, .str "op", .colon, .str "add", .comma, .str "path", .colon,
       .str (String.mk ("/metadata/labels/".data ++ replaceAllSlash env.labelKey.data)),
       .comma, .str "value", .colon, .str v, .rbrace, .rbracket] := by
  unfold tokenize getAdditionalLabelPatch
  simp only [String.data_append]
  rw [lexRun_append, lexRun_append, lexRun_append, lexRun_append]
  have h1 : lexRun (.idle, []) "[\n\t\t\x7b \"op\": \"add\", \"path\": \"/metadata/labels/".data
      = some (.inStr "/metadata/labels/".data,
          [.colon, .str "path", .comma, .str "add", .colon, .str "op", .lbrace, .lbracket]) := by
    decide
  rw [h1]
  simp only [Option.bind_some, Option.some_bind]
  rw [lexRun_plain _ _ _ (isPlainText_replaceAllSlash _ hk)]
  simp only [Option.bind_some, Option.some_bind]
  have h2 : ∀ acc toks, lexRun (.inStr acc, toks) "\", \"value\": \"".data
      = some (.inStr [], .colon :: .str "value" :: .comma :: .str (String.mk acc) :: toks) := by
    intro acc toks
    simp [lexRun, lexStep, lexIdle, isJsonSpace]
  rw [h2]
  simp only [Option.bind_some, Option.some_bind]
  rw [lexRun_plain _ _ _ hv]
  simp only [Option.bind_some, Option.some_bind, List.nil_append]
  have h3 : ∀ acc toks, lexRun (.inStr acc, toks) "\" \x7d\n\t]".data
      = some (.idle, .rbracket :: .rbrace :: .str (String.mk acc) :: toks) := by
    intro acc toks
    simp [lexRun, lexStep, lexIdle, isJsonSpace]
  rw [h3]
  rfl

/-- The additional-label patch decodes to one `add` of the value below `/metadata/labels/`. -/
theorem decodePatch_getAdditionalLabelPatch (env : Env) (v : String)
    (hk : isPlainText env.labelKey.data = true) (hv : isPlainText v.data = true) :
    decodePatch (getAdditionalLabelPatch env v) = some
      [[("op", .str "add"),
        ("path", .str (String.mk ("/metadata/labels/".data ++ replaceAllSlash env.labelKey.data))),
        ("value", .str v)]] := by
  unfold decodePatch parseJson
  rw [tokenize_getAdditionalLabelPatch env v hk hv]
  rfl

/-- The path of the additional-label patch points at the label key. -/
theorem pointerTokens_labelPath (key : String) (h : '~' ∉ key.data) :
    pointerTokens (String.mk ("/metadata/labels/".data ++ replaceAllSlash key.data))
      = ["metadata", "labels", key] := by
  unfold pointerTokens
  have hs : splitSlash ("/metadata/labels/".data ++ replaceAllSlash key.data)
      = [[], "metadata".data, "labels".data, replaceAllSlash key.data] := by
    have : "/metadata/labels/".data = ['/','m','e','t','a','d','a','t','a','/','l','a','b','e','l','s','/'] := by
      decide
    rw [this]
    simp [splitSlash, splitSlash_replaceAllSlash]
  rw [hs]
  simp only [List.drop_succ_cons, List.drop_zero, List.map_cons, List.map_nil,
    decodePatchKey_replaceAllSlash _ h]
  rfl

/-- A document of one `add` operation has the effect of that `add`. -/
theorem applyOperations_single_add (metadata : ObjectMeta) (path : String) (value : Json) :
    applyOperations [[("op", .str "add"), ("path", .str path), ("value", value)]] metadata
      = applyAdd metadata path value := by
  have h : applyOperations [[("op", .str "add"), ("path", .str path), ("value", value)]] metadata
      = (match applyAdd metadata path value with
         | .error e => .error e
         | .ok next => .ok next) := rfl
  rw [h]
  cases applyAdd metadata path value <;> rfl

/-- The additional-label patch sets the label key in an existing label map. -/
theorem applyPatch_getAdditionalLabelPatch (env : Env) (v : String) (metadata : ObjectMeta)
    (labels : StrMap) (hl : metadata.labels = some labels)
    (hk : isPlainText env.labelKey.data = true) (ht : '~' ∉ env.labelKey.data)
    (hv : isPlainText v.data = true) :
    applyPatch (getAdditionalLabelPatch env v) metadata
      = .ok { metadata with labels := some (labels.set env.labelKey v) } := by
  unfold applyPatch
  rw [decodePatch_getAdditionalLabelPatch env v hk hv]
  show applyOperations _ metadata = _
  rw [applyOperations_single_add]
  unfold applyAdd
  rw [pointerTokens_labelPath _ ht]
  simp [hl]

/-! ## The decision procedure -/

/-- Removing the entries of one key does not change what is stored under another. -/
theorem StrMap.find_filter_ne (m : StrMap) (k k' : String) (h : k ≠ k') :
    StrMap.find (m.filter (fun p => decide (p.1 ≠ k))) k' = StrMap.find m k' := by
  induction m with
  | nil => rfl
  | cons p rest ih =>
    obtain ⟨a, b⟩ := p
    by_cases ha : a = k
    · have hak : a ≠ k' := fun e => h (ha ▸ e)
      rw [List.filter_cons_of_neg (by simpa using ha)]
      simp only [StrMap.find, hak, if_false]
      exact ih
    · rw [List.filter_cons_of_pos (by simpa using ha)]
      simp only [StrMap.find]
      rw [ih]

/-- Reading a map after an assignment. -/
theorem StrMap.find_set (m : StrMap) (k v k' : String) :
    (m.set k v).find k' = if k = k' then some v else m.find k' := by
  unfold StrMap.set
  by_cases h : k = k'
  · simp [StrMap.find, h]
  · simp only [StrMap.find, h, if_false]
    exact StrMap.find_filter_ne m k k' h

/-- Indexing a map after an assignment. -/
theorem goIndex_set (m : StrMap) (k v k' : String) :
    goIndex (some (m.set k v)) k' = if k = k' then (v, true) else goIndex (some m) k' := by
  unfold goIndex
  simp only [StrMap.find_set]
  by_cases h : k = k' <;> simp [h]

/-- C1. On a request that is not a CREATE and whose metadata decodes, the
request is allowed exactly when the principal is outside the owners list or
the object carries the label key with the principal's own token; a denial has
status code 403; no patch is ever attached. -/
theorem onMutate_nonCreate (env : Env) (ar : AdmissionReview) (obj : ObjectMeta)
    (hop : ar.request.operation ≠ Create)
    (hobj : unmarshal (rawObject ar) = .ok obj) :
    ((onMutate env ar).allowed = true ↔
        (IsInOwnerList env.owners ar.request.userInfo.username = false ∨
          goIndex obj.labels env.labelKey
            = (env.OwnerToLabelValue ar.request.userInfo.username, true))) ∧
      ((onMutate env ar).allowed = false →
        (onMutate env ar).result.map Status.code = some 403) ∧
      (onMutate env ar).patch = none := by
  unfold onMutate
  rw [hobj]
  simp only [hop, ne_eq, not_false_eq_true, if_true]
  cases hs : IsInOwnerList env.owners ar.request.userInfo.username
  · simp [reviewResponse]
  · rcases hg : goIndex obj.labels env.labelKey with ⟨v, b⟩
    cases b
    · simp [deny, reviewResponse]
    · by_cases hv : v = env.OwnerToLabelValue ar.request.userInfo.username
      · simp [hv, reviewResponse]
      · simp [hv, deny, reviewResponse]

/-- Witness for C1: the test case "update disallow". -/
theorem onMutate_nonCreate_witness :
    (sampleReview Update "admin" (labelled (some [("owner", "joe")]))).request.operation ≠ Create ∧
      unmarshal (rawObject (sampleReview Update "admin" (labelled (some [("owner", "joe")]))))
        = .ok (labelled (some [("owner", "joe")])) ∧
      ((onMutate sampleEnv
          (sampleReview Update "admin" (labelled (some [("owner", "joe")])))).allowed = false →
        (onMutate sampleEnv
          (sampleReview Update "admin" (labelled (some [("owner", "joe")])))).result.map Status.code
          = some 403) ∧
      (onMutate sampleEnv
        (sampleReview Update "admin" (labelled (some [("owner", "joe")])))).patch = none :=
  ⟨by decide, rfl,
    (onMutate_nonCreate sampleEnv (sampleReview Update "admin" (labelled (some [("owner", "joe")])))
      (labelled (some [("owner", "joe")])) (by decide) rfl).2⟩

/-- C2, at a failing input. An UPDATE by the owner `admin` of an object that
`joe` owns, sent with the owner label rewritten to `admin`, is allowed: the
decision reads the incoming object, not the stored one.  The DELETE of the
same stored object by `admin` is denied with code 403. -/
theorem onMutate_update_reads_incoming_object :
    (onMutate sampleEnv
        { request :=
          { kind := { group := "", version := "v1", kind := "Secret" }
            Namespace := "default"
            operation := Update
            userInfo := { username := "admin" }
            object := .document (labelled (some [("owner", "admin")]))
            oldObject := .document (labelled (some [("owner", "joe")])) } }).allowed = true ∧
      (onMutate sampleEnv
        { request :=
          { kind := { group := "", version := "v1", kind := "Secret" }
            Namespace := "default"
            operation := Delete
            userInfo := { username := "admin" }
            object := .document (labelled (some [("owner", "admin")]))
            oldObject := .document (labelled (some [("owner", "joe")])) } }).allowed = false := by
  decide

/-- The CREATE branch with an owner in scope, on an object without the label
key: the request is allowed with a JSON patch, the patch applies, and the
patched object has the old labels and the label key with the owner's token. -/
theorem onMutate_create_patch (env : Env) (ar : AdmissionReview) (obj : ObjectMeta)
    (token : String)
    (hop : ar.request.operation = Create)
    (hobj : ar.request.object = .document obj)
    (hown : resolveOwner env obj ar.request = (token, true, none))
    (hfree : (goIndex obj.labels env.labelKey).2 = false)
    (hkey : isPlainText env.labelKey.data = true) (htilde : '~' ∉ env.labelKey.data)
    (htoken : isPlainText token.data = true) :
    (onMutate env ar).allowed = true ∧
      (onMutate env ar).patchType = some PatchType.JSONPatch ∧
      (onMutate env ar).patch.map (fun p => (applyPatch p obj).toOption.isSome) = some true ∧
      (∀ p obj', (onMutate env ar).patch = some p → applyPatch p obj = .ok obj' →
        (∀ k, goIndex obj'.labels k
            = if env.labelKey = k then (token, true) else goIndex obj.labels k) ∧
          (goLen obj.labels = 0 → obj'.labels = some [(env.labelKey, token)]) ∧
          obj'.annotations = obj.annotations ∧ obj'.ownerReferences = obj.ownerReferences) := by
  have hne : ar.request.operation ≠ Delete := by rw [hop]; decide
  have hraw : rawObject ar = .document obj := by
    unfold rawObject
    rw [if_neg hne, hobj]
  have hresp : onMutate env ar =
      if goLen obj.labels = 0 then
        { reviewResponse with
          patch := some (getFirstLabelPatch env token)
          patchType := some PatchType.JSONPatch }
      else
        { reviewResponse with
          patch := some (getAdditionalLabelPatch env token)
          patchType := some PatchType.JSONPatch } := by
    unfold onMutate
    rw [hraw]
    simp only [unmarshal, hop, ne_eq, not_true_eq_false, hown, hfree, Bool.not_true,
      Bool.not_false, if_true, if_false]
    simp
  rw [hresp]
  by_cases hlen : goLen obj.labels = 0
  · rw [if_pos hlen]
    have happ := applyPatch_getFirstLabelPatch env token obj hkey htoken
    refine ⟨rfl, rfl, ?_, ?_⟩
    · simp [happ, Except.toOption]
    intro p obj' hp hobj'
    simp only [Option.some.injEq] at hp
    subst hp
    rw [happ] at hobj'
    cases hobj'
    refine ⟨?_, fun _ => rfl, rfl, rfl⟩
    intro k
    have hempty : goIndex obj.labels k = ("", false) := by
      cases hl : obj.labels with
      | none => rfl
      | some l =>
        rw [hl] at hlen
        simp only [goLen, List.length_eq_zero] at hlen
        subst hlen
        rfl
    rw [hempty]
    by_cases hk : env.labelKey = k <;> simp [goIndex, StrMap.find, hk]
  · rw [if_neg hlen]
    obtain ⟨l, hl⟩ : ∃ l, obj.labels = some l := by
      cases hl : obj.labels with
      | none => exact absurd (by rw [hl]; rfl) hlen
      | some l => exact ⟨l, rfl⟩
    have happ := applyPatch_getAdditionalLabelPatch env token obj l hl hkey htilde htoken
    refine ⟨rfl, rfl, ?_, ?_⟩
    · simp [happ, Except.toOption]
    intro p obj' hp hobj'
    simp only [Option.some.injEq] at hp
    subst hp
    rw [happ] at hobj'
    cases hobj'
    refine ⟨?_, fun h0 => absurd h0 hlen, rfl, rfl⟩
    intro k
    rw [hl]
    exact goIndex_set l _ _ k

/-- C3. A CREATE by a principal of the owners list on an object without the
label key is allowed with a JSON patch; the patch applies, and the patched
object has the old labels and the label key with the principal's token, and
nothing but that label when it had no labels. -/
theorem onMutate_create_adds_owner_label (env : Env) (ar : AdmissionReview) (obj : ObjectMeta)
    (hop : ar.request.operation = Create)
    (hobj : ar.request.object = .document obj)
    (hscope : IsInOwnerList env.owners ar.request.userInfo.username = true)
    (hfree : (goIndex obj.labels env.labelKey).2 = false)
    (hkey : isPlainText env.labelKey.data = true) (htilde : '~' ∉ env.labelKey.data)
    (htoken : isPlainText (env.OwnerToLabelValue ar.request.userInfo.username).data = true) :
    (onMutate env ar).allowed = true ∧
      (onMutate env ar).patchType = some PatchType.JSONPatch ∧
      (onMutate env ar).patch.map (fun p => (applyPatch p obj).toOption.isSome) = some true ∧
      (∀ p obj', (onMutate env ar).patch = some p → applyPatch p obj = .ok obj' →
        (∀ k, goIndex obj'.labels k
            = if env.labelKey = k then (env.OwnerToLabelValue ar.request.userInfo.username, true)
              else goIndex obj.labels k) ∧
          (goLen obj.labels = 0 →
            obj'.labels
              = some [(env.labelKey, env.OwnerToLabelValue ar.request.userInfo.username)]) ∧
          obj'.annotations = obj.annotations ∧ obj'.ownerReferences = obj.ownerReferences) := by
  have hown : resolveOwner env obj ar.request
      = (env.OwnerToLabelValue ar.request.userInfo.username, true, none) := by
    simp [resolveOwner, hscope]
  exact onMutate_create_patch env ar obj _ hop hobj hown hfree hkey htilde htoken

/-- Witness for C3: the test case "create append label". -/
theorem onMutate_create_adds_owner_label_witness :
    IsInOwnerList sampleEnv.owners "admin" = true ∧
      (goIndex (labelled (some [("another-label", "true")])).labels sampleEnv.labelKey).2 = false ∧
      (onMutate sampleEnv
        (sampleReview Create "admin" (labelled (some [("another-label", "true")])))).allowed = true ∧
      (onMutate sampleEnv
          (sampleReview Create "admin" (labelled (some [("another-label", "true")])))).patch.map
        (fun p => (applyPatch p (labelled (some [("another-label", "true")]))).toOption.isSome)
        = some true :=
  ⟨by decide, by decide,
    (onMutate_create_adds_owner_label sampleEnv
      (sampleReview Create "admin" (labelled (some [("another-label", "true")])))
      (labelled (some [("another-label", "true")])) rfl rfl (by decide) (by decide) (by decide)
      (by decide) (by decide)).1,
    (onMutate_create_adds_owner_label sampleEnv
      (sampleReview Create "admin" (labelled (some [("another-label", "true")])))
      (labelled (some [("another-label", "true")])) rfl rfl (by decide) (by decide) (by decide)
      (by decide) (by decide)).2.2.1⟩

/-- A map in which a key is found is not empty. -/
theorem goLen_ne_zero_of_index (m : Option StrMap) (k v : String)
    (h : goIndex m k = (v, true)) : goLen m ≠ 0 := by
  cases m with
  | none => simp [goIndex] at h
  | some l =>
    cases l with
    | nil => simp [goIndex, StrMap.find] at h
    | cons p rest => simp [goLen]

/-- On a CREATE the incoming object is the one decoded. -/
theorem rawObject_create (ar : AdmissionReview) (obj : ObjectMeta)
    (hop : ar.request.operation = Create) (hobj : ar.request.object = .document obj) :
    unmarshal (rawObject ar) = .ok obj := by
  have hne : ar.request.operation ≠ Delete := by rw [hop]; decide
  unfold rawObject
  rw [if_neg hne, hobj]
  rfl

/-- C4. A CREATE for which an owner in scope is established (the principal
itself, or the owner found by the lookup) on an object that already carries
the label key with another value is denied with code 403 and no patch. -/
theorem onMutate_create_conflict (env : Env) (ar : AdmissionReview) (obj : ObjectMeta)
    (token value : String)
    (hop : ar.request.operation = Create)
    (hobj : ar.request.object = .document obj)
    (hown : (IsInOwnerList env.owners ar.request.userInfo.username = true ∧
          token = env.OwnerToLabelValue ar.request.userInfo.username) ∨
        (IsInOwnerList env.owners ar.request.userInfo.username = false ∧
          getOwnerObjLabel env obj ar.request = (token, true, none)))
    (hlabel : goIndex obj.labels env.labelKey = (value, true))
    (hdiff : value ≠ token) :
    (onMutate env ar).allowed = false ∧
      (onMutate env ar).result.map Status.code = some 403 ∧
      (onMutate env ar).patch = none ∧
      (onMutate env ar).patchType = none := by
  have hres : resolveOwner env obj ar.request = (token, true, none) := by
    rcases hown with ⟨hin, htok⟩ | ⟨hout, hget⟩
    · simp [resolveOwner, hin, htok]
    · simp [resolveOwner, hout, hget]
  have hlen := goLen_ne_zero_of_index _ _ _ hlabel
  unfold onMutate
  rw [rawObject_create ar obj hop hobj]
  simp [hop, hres, hlen, hlabel, hdiff, deny, reviewResponse]

/-- Witness for C4: `admin` creates an object labelled as owned by `joe`. -/
theorem onMutate_create_conflict_witness :
    goIndex (labelled (some [("owner", "joe")])).labels sampleEnv.labelKey = ("joe", true) ∧
      "joe" ≠ "admin" ∧
      (onMutate sampleEnv (sampleReview Create "admin" (labelled (some [("owner", "joe")])))).allowed
        = false ∧
      (onMutate sampleEnv
        (sampleReview Create "admin" (labelled (some [("owner", "joe")])))).result.map Status.code
        = some 403 :=
  ⟨by decide, by decide,
    (onMutate_create_conflict sampleEnv
      (sampleReview Create "admin" (labelled (some [("owner", "joe")])))
      (labelled (some [("owner", "joe")])) "admin" "joe" rfl rfl
      (Or.inl ⟨by decide, rfl⟩) (by decide) (by decide)).1,
    (onMutate_create_conflict sampleEnv
      (sampleReview Create "admin" (labelled (some [("owner", "joe")])))
      (labelled (some [("owner", "joe")])) "admin" "joe" rfl rfl
      (Or.inl ⟨by decide, rfl⟩) (by decide) (by decide)).2.1⟩

/-- The resolver on an object with owner references: the lookup of the first one decides. -/
theorem getOwnerObjLabel_cons (env : Env) (obj : ObjectMeta) (request : AdmissionRequest)
    (r : OwnerReference) (rest : List OwnerReference) (href : obj.ownerReferences = r :: rest) :
    getOwnerObjLabel env obj request =
      match env.GetObjectLabels r.apiVersion r.kind request.Namespace r.name with
      | .error err => ("", false, some ("failed to get owner labels: " ++ err))
      | .ok labels =>
        ((goIndex labels env.labelKey).1,
          IsInOwnerList env.owners (env.OwnerFromLabelValue (goIndex labels env.labelKey).1), none) := by
  unfold getOwnerObjLabel getOwnerReferenceLabels
  rw [href]
  simp only [List.length_cons, gt_iff_lt, Nat.zero_lt_succ, if_true]
  cases env.GetObjectLabels r.apiVersion r.kind request.Namespace r.name <;> rfl

/-- The resolver on an object without owner references. -/
theorem getOwnerObjLabel_nil (env : Env) (obj : ObjectMeta) (request : AdmissionRequest)
    (href : obj.ownerReferences = []) :
    getOwnerObjLabel env obj request =
      if request.kind.kind = "Secret" ∧
          (goIndex obj.annotations "kubernetes.io/service-account.name").2 = true then
        match env.GetObjectLabels "v1" "ServiceAccount" request.Namespace
            (goIndex obj.annotations "kubernetes.io/service-account.name").1 with
        | .error err => ("", false, some ("failed to get owner labels: " ++ err))
        | .ok labels =>
          ((goIndex labels env.labelKey).1,
            IsInOwnerList env.owners (env.OwnerFromLabelValue (goIndex labels env.labelKey).1),
            none)
      else ("", false, none) := by
  unfold getOwnerObjLabel getOwnerReferenceLabels
  rw [href]
  simp only [List.length_nil, gt_iff_lt, Nat.lt_irrefl, if_false]
  by_cases h : request.kind.kind = "Secret" ∧
      (goIndex obj.annotations "kubernetes.io/service-account.name").2 = true
  · simp only [h, and_self, if_true]
    cases env.GetObjectLabels "v1" "ServiceAccount" request.Namespace
      (goIndex obj.annotations "kubernetes.io/service-account.name").1 <;> rfl
  · simp only [h, if_false]

/-- C5, as stated, fails: `system` creates an object whose first owner
reference resolves to the owner `admin`, but the object already carries the
owner label of `joe`; the request is denied and no patch is made. -/
theorem onMutate_create_owner_label_conflict :
    (sampleReview Create "system"
        (ownedBy (some [("owner", "joe")]) [deploymentRef])).request.operation = Create ∧
      IsInOwnerList sampleEnv.owners "system" = false ∧
      sampleEnv.GetObjectLabels deploymentRef.apiVersion deploymentRef.kind "default"
        deploymentRef.name = .ok (some [("owner", "admin")]) ∧
      IsInOwnerList sampleEnv.owners (sampleEnv.OwnerFromLabelValue "admin") = true ∧
      (onMutate sampleEnv (sampleReview Create "system"
        (ownedBy (some [("owner", "joe")]) [deploymentRef]))).allowed = false ∧
      (onMutate sampleEnv (sampleReview Create "system"
        (ownedBy (some [("owner", "joe")]) [deploymentRef]))).patch = none := by
  refine ⟨rfl, by decide, rfl, by decide, by decide, by decide⟩

/-- C5, amended. A CREATE by a principal outside the owners list, on an object
that has an owner reference and does not itself carry the label key: when the
lookup of the first reference succeeds and the value `v` of the owner's label
decodes to a principal of the owners list, the request is allowed with a JSON
patch that applies and sets the label key to `v`, keeping every other label. -/
theorem onMutate_create_owner_label (env : Env) (ar : AdmissionReview) (obj : ObjectMeta)
    (r : OwnerReference) (rest : List OwnerReference) (labels : Option StrMap)
    (hop : ar.request.operation = Create)
    (hobj : ar.request.object = .document obj)
    (hout : IsInOwnerList env.owners ar.request.userInfo.username = false)
    (href : obj.ownerReferences = r :: rest)
    (hlook : env.GetObjectLabels r.apiVersion r.kind ar.request.Namespace r.name = .ok labels)
    (hin : IsInOwnerList env.owners (env.OwnerFromLabelValue (goIndex labels env.labelKey).1)
      = true)
    (hfree : (goIndex obj.labels env.labelKey).2 = false)
    (hkey : isPlainText env.labelKey.data = true) (htilde : '~' ∉ env.labelKey.data)
    (hvalue : isPlainText (goIndex labels env.labelKey).1.data = true) :
    (onMutate env ar).allowed = true ∧
      (onMutate env ar).patchType = some PatchType.JSONPatch ∧
      (onMutate env ar).patch.map (fun p => (applyPatch p obj).toOption.isSome) = some true ∧
      (∀ p obj', (onMutate env ar).patch = some p → applyPatch p obj = .ok obj' →
        (∀ k, goIndex obj'.labels k
            = if env.labelKey = k then ((goIndex labels env.labelKey).1, true)
              else goIndex obj.labels k) ∧
          (goLen obj.labels = 0 →
            obj'.labels = some [(env.labelKey, (goIndex labels env.labelKey).1)]) ∧
          obj'.annotations = obj.annotations ∧ obj'.ownerReferences = obj.ownerReferences) := by
  have hown : resolveOwner env obj ar.request
      = ((goIndex labels env.labelKey).1, true, none) := by
    unfold resolveOwner
    rw [hout, getOwnerObjLabel_cons env obj ar.request r rest href, hlook]
    simp [hin]
  exact onMutate_create_patch env ar obj _ hop hobj hown hfree hkey htilde hvalue

/-- Witness for C5: the test case "create add label from owner ref". -/
theorem onMutate_create_owner_label_witness :
    IsInOwnerList sampleEnv.owners "system" = false ∧
      sampleEnv.GetObjectLabels deploymentRef.apiVersion deploymentRef.kind "default"
        deploymentRef.name = .ok (some [("owner", "admin")]) ∧
      (onMutate sampleEnv (sampleReview Create "system" (ownedBy none [deploymentRef]))).allowed
        = true ∧
      (onMutate sampleEnv (sampleReview Create "system" (ownedBy none [deploymentRef]))).patch.map
        (fun p => (applyPatch p (ownedBy none [deploymentRef])).toOption.isSome) = some true :=
  ⟨by decide, rfl,
    (onMutate_create_owner_label sampleEnv
      (sampleReview Create "system" (ownedBy none [deploymentRef])) (ownedBy none [deploymentRef])
      deploymentRef [] (some [("owner", "admin")]) rfl rfl (by decide) rfl rfl (by decide)
      (by decide) (by decide) (by decide) (by decide)).1,
    (onMutate_create_owner_label sampleEnv
      (sampleReview Create "system" (ownedBy none [deploymentRef])) (ownedBy none [deploymentRef])
      deploymentRef [] (some [("owner", "admin")]) rfl rfl (by decide) rfl rfl (by decide)
      (by decide) (by decide) (by decide) (by decide)).2.2.1⟩

/-- A CREATE for which the owner found is out of scope gets the initial response. -/
theorem onMutate_create_skip (env : Env) (ar : AdmissionReview) (obj : ObjectMeta)
    (token : String)
    (hop : ar.request.operation = Create)
    (hobj : ar.request.object = .document obj)
    (hown : resolveOwner env obj ar.request = (token, false, none)) :
    onMutate env ar = reviewResponse := by
  unfold onMutate
  rw [rawObject_create ar obj hop hobj]
  simp [hop, hown]

/-- C6. A CREATE by a principal outside the owners list for which no owner in
scope is found (no owner reference and no service-account binding on a Secret,
or a lookup that succeeds on an owner whose label value, empty when absent,
does not decode to a listed principal) is allowed without a patch, whatever
labels the object carries. -/
theorem onMutate_create_no_owner (env : Env) (ar : AdmissionReview) (obj : ObjectMeta)
    (hop : ar.request.operation = Create)
    (hobj : ar.request.object = .document obj)
    (hout : IsInOwnerList env.owners ar.request.userInfo.username = false)
    (hnone :
      (obj.ownerReferences = [] ∧
        ¬ (ar.request.kind.kind = "Secret" ∧
            (goIndex obj.annotations "kubernetes.io/service-account.name").2 = true)) ∨
      (∃ r rest labels, obj.ownerReferences = r :: rest ∧
        env.GetObjectLabels r.apiVersion r.kind ar.request.Namespace r.name = .ok labels ∧
        IsInOwnerList env.owners (env.OwnerFromLabelValue (goIndex labels env.labelKey).1)
          = false) ∨
      (∃ labels, obj.ownerReferences = [] ∧ ar.request.kind.kind = "Secret" ∧
        (goIndex obj.annotations "kubernetes.io/service-account.name").2 = true ∧
        env.GetObjectLabels "v1" "ServiceAccount" ar.request.Namespace
          (goIndex obj.annotations "kubernetes.io/service-account.name").1 = .ok labels ∧
        IsInOwnerList env.owners (env.OwnerFromLabelValue (goIndex labels env.labelKey).1)
          = false)) :
    (onMutate env ar).allowed = true ∧ (onMutate env ar).patch = none ∧
      (onMutate env ar).patchType = none ∧ (onMutate env ar).result = none := by
  have hres : ∃ token, resolveOwner env obj ar.request = (token, false, none) := by
    unfold resolveOwner
    rw [hout]
    rcases hnone with ⟨href, hno⟩ | ⟨r, rest, labels, href, hlook, hnot⟩ |
      ⟨labels, href, hkind, hann, hlook, hnot⟩
    · exact ⟨"", by simp [getOwnerObjLabel_nil env obj ar.request href, hno]⟩
    · exact ⟨(goIndex labels env.labelKey).1,
        by simp [getOwnerObjLabel_cons env obj ar.request r rest href, hlook, hnot]⟩
    · exact ⟨(goIndex labels env.labelKey).1,
        by simp [getOwnerObjLabel_nil env obj ar.request href, hkind, hann, hlook, hnot]⟩
  obtain ⟨token, hown⟩ := hres
  rw [onMutate_create_skip env ar obj token hop hobj hown]
  exact ⟨rfl, rfl, rfl, rfl⟩

/-- Witness for C6: an owner without the label (the lookup succeeds, the
value is empty), on an object that carries a foreign owner label. -/
theorem onMutate_create_no_owner_witness :
    IsInOwnerList sampleEnv.owners "system" = false ∧
      sampleEnv.GetObjectLabels configMapRef.apiVersion configMapRef.kind "default"
        configMapRef.name = .ok none ∧
      (onMutate sampleEnv (sampleReview Create "system"
        (ownedBy (some [("owner", "joe")]) [configMapRef]))).allowed = true ∧
      (onMutate sampleEnv (sampleReview Create "system"
        (ownedBy (some [("owner", "joe")]) [configMapRef]))).patch = none :=
  ⟨by decide, rfl,
    (onMutate_create_no_owner sampleEnv
      (sampleReview Create "system" (ownedBy (some [("owner", "joe")]) [configMapRef]))
      (ownedBy (some [("owner", "joe")]) [configMapRef]) rfl rfl (by decide)
      (Or.inr (Or.inl ⟨configMapRef, [], none, rfl, rfl, by decide⟩))).1,
    (onMutate_create_no_owner sampleEnv
      (sampleReview Create "system" (ownedBy (some [("owner", "joe")]) [configMapRef]))
      (ownedBy (some [("owner", "joe")]) [configMapRef]) rfl rfl (by decide)
      (Or.inr (Or.inl ⟨configMapRef, [], none, rfl, rfl, by decide⟩))).2.1⟩

/-- The CREATE branch of `onMutate`, once the object is decoded. -/
theorem onMutate_create_eq (env : Env) (ar : AdmissionReview) (obj : ObjectMeta)
    (hop : ar.request.operation = Create) (hobj : ar.request.object = .document obj) :
    onMutate env ar =
      match resolveOwner env obj ar.request with
      | (_, _, some err) => env.toV1AdmissionResponse err
      | (ownerLabelValue, isInScope, none) =>
        if !isInScope then reviewResponse
        else if goLen obj.labels = 0 then
          { reviewResponse with
            patch := some (getFirstLabelPatch env ownerLabelValue)
            patchType := some PatchType.JSONPatch }
        else if !(goIndex obj.labels env.labelKey).2 then
          { reviewResponse with
            patch := some (getAdditionalLabelPatch env ownerLabelValue)
            patchType := some PatchType.JSONPatch }
        else if (goIndex obj.labels env.labelKey).1 ≠ ownerLabelValue then
          deny (ar.request.userInfo.username
            ++ " not allowed to create a resources with another owner in label "
            ++ env.labelKey ++ "=" ++ (goIndex obj.labels env.labelKey).1 ++ ".")
        else reviewResponse := by
  unfold onMutate
  rw [rawObject_create ar obj hop hobj]
  simp only [hop, ne_eq, not_true_eq_false, if_false]

/-- C7. On a CREATE by a principal outside the owners list, the resolver
consults the first owner reference only: its result is a function of the
lookup of that reference, and neither the references after the first nor the
cluster's answers to any other lookup change the resolver's result or the
response. -/
theorem first_owner_reference_only (env : Env) (ar : AdmissionReview) (obj : ObjectMeta)
    (r : OwnerReference) (rest : List OwnerReference)
    (hop : ar.request.operation = Create)
    (hobj : ar.request.object = .document obj)
    (hout : IsInOwnerList env.owners ar.request.userInfo.username = false)
    (href : obj.ownerReferences = r :: rest) :
    (getOwnerObjLabel env obj ar.request =
        match env.GetObjectLabels r.apiVersion r.kind ar.request.Namespace r.name with
        | .error err => ("", false, some ("failed to get owner labels: " ++ err))
        | .ok labels =>
          ((goIndex labels env.labelKey).1,
            IsInOwnerList env.owners (env.OwnerFromLabelValue (goIndex labels env.labelKey).1),
            none)) ∧
      (∀ rest' : List OwnerReference,
        getOwnerObjLabel env { obj with ownerReferences := r :: rest' } ar.request
            = getOwnerObjLabel env obj ar.request ∧
          onMutate env
              { request :=
                { ar.request with
                  object := .document { obj with ownerReferences := r :: rest' } } }
            = onMutate env ar) ∧
      (∀ lookup : String → String → String → String → Except String (Option StrMap),
        lookup r.apiVersion r.kind ar.request.Namespace r.name
            = env.GetObjectLabels r.apiVersion r.kind ar.request.Namespace r.name →
          getOwnerObjLabel { env with GetObjectLabels := lookup } obj ar.request
              = getOwnerObjLabel env obj ar.request ∧
            onMutate { env with GetObjectLabels := lookup } ar = onMutate env ar) := by
  refine ⟨getOwnerObjLabel_cons env obj ar.request r rest href, ?_, ?_⟩
  · intro rest'
    have hget : getOwnerObjLabel env { obj with ownerReferences := r :: rest' } ar.request
        = getOwnerObjLabel env obj ar.request := by
      rw [getOwnerObjLabel_cons env obj ar.request r rest href,
        getOwnerObjLabel_cons env { obj with ownerReferences := r :: rest' } ar.request r rest' rfl]
    refine ⟨hget, ?_⟩
    have h2 := onMutate_create_eq env
      { request :=
        { ar.request with object := .document { obj with ownerReferences := r :: rest' } } }
      { obj with ownerReferences := r :: rest' } hop rfl
    rw [h2, onMutate_create_eq env ar obj hop hobj]
    simp only [resolveOwner, hout, Bool.not_false, if_true]
    rw [getOwnerObjLabel_cons env obj ar.request r rest href,
      getOwnerObjLabel_cons env { obj with ownerReferences := r :: rest' } _ r rest' rfl]
  · intro lookup hsame
    have hget : getOwnerObjLabel { env with GetObjectLabels := lookup } obj ar.request
        = getOwnerObjLabel env obj ar.request := by
      rw [getOwnerObjLabel_cons env obj ar.request r rest href,
        getOwnerObjLabel_cons { env with GetObjectLabels := lookup } obj ar.request r rest href]
      simp only [hsame]
    refine ⟨hget, ?_⟩
    rw [onMutate_create_eq env ar obj hop hobj,
      onMutate_create_eq { env with GetObjectLabels := lookup } ar obj hop hobj]
    simp only [resolveOwner, hout, Bool.not_false, if_true]
    rw [hget]
    rfl

/-- Witness for C7: the first reference points to an unlabelled owner, the
second to an object of `admin`; the second changes nothing. -/
theorem first_owner_reference_only_witness :
    IsInOwnerList sampleEnv.owners "system" = false ∧
      getOwnerObjLabel sampleEnv (ownedBy none [configMapRef])
          (sampleReview Create "system" (ownedBy none [configMapRef, deploymentRef])).request
        = getOwnerObjLabel sampleEnv (ownedBy none [configMapRef, deploymentRef])
          (sampleReview Create "system" (ownedBy none [configMapRef, deploymentRef])).request ∧
      getOwnerObjLabel sampleEnv (ownedBy none [configMapRef, deploymentRef])
          (sampleReview Create "system" (ownedBy none [configMapRef, deploymentRef])).request
        = ("", false, none) :=
  ⟨by decide,
    ((first_owner_reference_only sampleEnv
      (sampleReview Create "system" (ownedBy none [configMapRef, deploymentRef]))
      (ownedBy none [configMapRef, deploymentRef]) configMapRef [deploymentRef]
      rfl rfl (by decide) rfl).2.1 []).1,
    (first_owner_reference_only sampleEnv
      (sampleReview Create "system" (ownedBy none [configMapRef, deploymentRef]))
      (ownedBy none [configMapRef, deploymentRef]) configMapRef [deploymentRef]
      rfl rfl (by decide) rfl).1⟩

/-- The resolver reads the owner references, the annotations, the namespace and the kind only. -/
theorem getOwnerObjLabel_congr (env : Env) (obj obj' : ObjectMeta)
    (request request' : AdmissionRequest)
    (hrefs : obj'.ownerReferences = obj.ownerReferences)
    (hann : obj'.annotations = obj.annotations)
    (hns : request'.Namespace = request.Namespace) (hkind : request'.kind = request.kind) :
    getOwnerObjLabel env obj' request' = getOwnerObjLabel env obj request := by
  unfold getOwnerObjLabel
  rw [hrefs, hann, hns, hkind]

/-- C8. Idempotence on CREATE: when `onMutate` allows a request with a patch,
the patch applies, and `onMutate` on the same request with the patched object
allows it without a patch. -/
theorem onMutate_idempotent (env : Env) (ar : AdmissionReview) (obj : ObjectMeta) (p : String)
    (hop : ar.request.operation = Create)
    (hobj : ar.request.object = .document obj)
    (_hallow : (onMutate env ar).allowed = true)
    (hpatch : (onMutate env ar).patch = some p)
    (herr : ∀ err, (env.toV1AdmissionResponse err).patch = none)
    (hkey : isPlainText env.labelKey.data = true) (htilde : '~' ∉ env.labelKey.data)
    (htoken : isPlainText (resolveOwner env obj ar.request).1.data = true) :
    (applyPatch p obj).toOption.isSome = true ∧
      ∀ obj', applyPatch p obj = .ok obj' →
        onMutate env { request := { ar.request with object := .document obj' } }
          = reviewResponse := by
  rcases hres : resolveOwner env obj ar.request with ⟨token, inScope, err⟩
  rw [hres] at htoken
  have heq := onMutate_create_eq env ar obj hop hobj
  rw [hres] at heq
  -- only the two patching cases of the switch leave a patch
  have hcase : inScope = true ∧ err = none ∧ (goIndex obj.labels env.labelKey).2 = false := by
    cases err with
    | some e =>
      rw [heq] at hpatch
      simp [herr e] at hpatch
    | none =>
      cases inScope with
      | false =>
        rw [heq] at hpatch
        simp [reviewResponse] at hpatch
      | true =>
        refine ⟨rfl, rfl, ?_⟩
        by_cases hlen : goLen obj.labels = 0
        · cases hl : obj.labels with
          | none => rfl
          | some l =>
            rw [hl] at hlen
            simp only [goLen, List.length_eq_zero] at hlen
            subst hlen
            rfl
        · cases hhas : (goIndex obj.labels env.labelKey).2 with
          | false => rfl
          | true =>
            rw [heq] at hpatch
            by_cases hv : (goIndex obj.labels env.labelKey).1 = token
            · simp [hlen, hhas, hv, reviewResponse] at hpatch
            · simp [hlen, hhas, hv, reviewResponse, deny] at hpatch
  obtain ⟨hin, hnone, hfree⟩ := hcase
  subst hin hnone
  obtain ⟨_, _, hsome, hafter⟩ :=
    onMutate_create_patch env ar obj token hop hobj hres hfree hkey htilde htoken
  rw [hpatch] at hsome
  simp only [Option.map_some', Option.some.injEq] at hsome
  refine ⟨hsome, ?_⟩
  intro obj' happ
  obtain ⟨hlabels, _, hann, hrefs⟩ := hafter p obj' hpatch happ
  have hkeyval : goIndex obj'.labels env.labelKey = (token, true) := by
    rw [hlabels env.labelKey]
    simp
  have hres' : resolveOwner env obj'
      ({ ar.request with object := .document obj' } : AdmissionRequest)
      = (token, true, none) := by
    rw [← hres]
    unfold resolveOwner
    rw [getOwnerObjLabel_congr env obj obj' ar.request
      ({ ar.request with object := .document obj' } : AdmissionRequest) hrefs hann rfl rfl]
  have h2 := onMutate_create_eq env
    { request := { ar.request with object := .document obj' } } obj' hop rfl
  rw [h2, hres']
  simp [goLen_ne_zero_of_index _ _ _ hkeyval, hkeyval]

/-- Witness for C8: the test case "create add label", evaluated a second
time on the patched object. -/
theorem onMutate_idempotent_witness :
    (onMutate sampleEnv (sampleReview Create "admin" (labelled none))).allowed = true ∧
      (onMutate sampleEnv (sampleReview Create "admin" (labelled none))).patch
        = some (getFirstLabelPatch sampleEnv "admin") ∧
      applyPatch (getFirstLabelPatch sampleEnv "admin") (labelled none)
        = .ok (labelled (some [("owner", "admin")])) ∧
      onMutate sampleEnv (sampleReview Create "admin" (labelled (some [("owner", "admin")])))
        = reviewResponse :=
  ⟨by decide, by decide, rfl,
    (onMutate_idempotent sampleEnv (sampleReview Create "admin" (labelled none)) (labelled none)
      (getFirstLabelPatch sampleEnv "admin") rfl rfl (by decide) (by decide) (fun _ => rfl)
      (by decide) (by decide) (by decide)).2 (labelled (some [("owner", "admin")])) rfl⟩

/-- C9. On a CREATE by a principal outside the owners list, a lookup that
fails (for the first owner reference, or for the service account bound to a
Secret) makes `getOwnerObjLabel` return the empty token, out of scope, and an
error that wraps the cause; `onMutate` answers with the response built from
that error. -/
theorem onMutate_lookup_error (env : Env) (ar : AdmissionReview) (obj : ObjectMeta)
    (cause : String)
    (hop : ar.request.operation = Create)
    (hobj : ar.request.object = .document obj)
    (hout : IsInOwnerList env.owners ar.request.userInfo.username = false)
    (hfail :
      (∃ r rest, obj.ownerReferences = r :: rest ∧
        env.GetObjectLabels r.apiVersion r.kind ar.request.Namespace r.name = .error cause) ∨
      (obj.ownerReferences = [] ∧ ar.request.kind.kind = "Secret" ∧
        (goIndex obj.annotations "kubernetes.io/service-account.name").2 = true ∧
        env.GetObjectLabels "v1" "ServiceAccount" ar.request.Namespace
          (goIndex obj.annotations "kubernetes.io/service-account.name").1 = .error cause)) :
    getOwnerObjLabel env obj ar.request
        = ("", false, some ("failed to get owner labels: " ++ cause)) ∧
      onMutate env ar = env.toV1AdmissionResponse ("failed to get owner labels: " ++ cause) := by
  have hget : getOwnerObjLabel env obj ar.request
      = ("", false, some ("failed to get owner labels: " ++ cause)) := by
    rcases hfail with ⟨r, rest, href, hlook⟩ | ⟨href, hkind, hann, hlook⟩
    · rw [getOwnerObjLabel_cons env obj ar.request r rest href, hlook]
    · rw [getOwnerObjLabel_nil env obj ar.request href, if_pos ⟨hkind, hann⟩, hlook]
  refine ⟨hget, ?_⟩
  rw [onMutate_create_eq env ar obj hop hobj]
  simp only [resolveOwner, hout, Bool.not_false, if_true, hget]

/-- Witness for C9: the first owner reference names an object the cluster
does not have. -/
theorem onMutate_lookup_error_witness :
    IsInOwnerList sampleEnv.owners "system" = false ∧
      sampleEnv.GetObjectLabels missingRef.apiVersion missingRef.kind "default" missingRef.name
        = .error "failed to get owner object: not found" ∧
      getOwnerObjLabel sampleEnv (ownedBy none [missingRef])
          (sampleReview Create "system" (ownedBy none [missingRef])).request
        = ("", false,
            some ("failed to get owner labels: " ++ "failed to get owner object: not found")) ∧
      onMutate sampleEnv (sampleReview Create "system" (ownedBy none [missingRef]))
        = sampleErrorResponse
            ("failed to get owner labels: " ++ "failed to get owner object: not found") :=
  ⟨by decide, rfl,
    onMutate_lookup_error sampleEnv (sampleReview Create "system" (ownedBy none [missingRef]))
      (ownedBy none [missingRef]) "failed to get owner object: not found" rfl rfl (by decide)
      (Or.inl ⟨missingRef, [], rfl, rfl⟩)⟩

/-- C10. Without owner references, the resolver looks up the service account
named by the annotation of a Secret, in the request namespace, and treats the
labels found exactly as those of a first owner reference; when the kind is
not Secret or the annotation is missing it returns the empty token, out of
scope, without error, whatever the cluster holds. -/
theorem getOwnerObjLabel_service_account (env : Env) (obj : ObjectMeta)
    (request : AdmissionRequest) (href : obj.ownerReferences = []) :
    (∀ account, request.kind.kind = "Secret" →
        goIndex obj.annotations "kubernetes.io/service-account.name" = (account, true) →
        getOwnerObjLabel env obj request
            = (match env.GetObjectLabels "v1" "ServiceAccount" request.Namespace account with
              | .error err => ("", false, some ("failed to get owner labels: " ++ err))
              | .ok labels =>
                ((goIndex labels env.labelKey).1,
                  IsInOwnerList env.owners
                    (env.OwnerFromLabelValue (goIndex labels env.labelKey).1), none)) ∧
          getOwnerObjLabel env obj request
            = getOwnerObjLabel env
                { obj with
                  ownerReferences :=
                    [{ apiVersion := "v1", kind := "ServiceAccount", name := account }] }
                request) ∧
      ((request.kind.kind ≠ "Secret" ∨
          (goIndex obj.annotations "kubernetes.io/service-account.name").2 = false) →
        ∀ lookup : String → String → String → String → Except String (Option StrMap),
          getOwnerObjLabel { env with GetObjectLabels := lookup } obj request
            = ("", false, none)) := by
  constructor
  · intro account hkind hann
    have h1 : getOwnerObjLabel env obj request
        = (match env.GetObjectLabels "v1" "ServiceAccount" request.Namespace account with
          | .error err => ("", false, some ("failed to get owner labels: " ++ err))
          | .ok labels =>
            ((goIndex labels env.labelKey).1,
              IsInOwnerList env.owners
                (env.OwnerFromLabelValue (goIndex labels env.labelKey).1), none)) := by
      rw [getOwnerObjLabel_nil env obj request href, hann]
      simp [hkind]
    refine ⟨h1, ?_⟩
    rw [h1, getOwnerObjLabel_cons env _ request
      { apiVersion := "v1", kind := "ServiceAccount", name := account } [] rfl]
  · intro hno lookup
    rw [getOwnerObjLabel_nil _ obj request href]
    rcases hno with hkind | hann
    · simp [hkind]
    · simp [hann]

/-- Witness for C10: the test case "create add label from service account ref". -/
theorem getOwnerObjLabel_service_account_witness :
    (boundTo none "sa").ownerReferences = [] ∧
      goIndex (boundTo none "sa").annotations "kubernetes.io/service-account.name"
        = ("sa", true) ∧
      getOwnerObjLabel sampleEnv (boundTo none "sa")
          (sampleReview Create "system" (boundTo none "sa")).request
        = ("admin", true, none) ∧
      getOwnerObjLabel sampleEnv (boundTo none "sa")
          (reviewOf "ConfigMap" Create "system" (boundTo none "sa")).request
        = ("", false, none) :=
  ⟨rfl, by decide,
    ((getOwnerObjLabel_service_account sampleEnv (boundTo none "sa")
      (sampleReview Create "system" (boundTo none "sa")).request rfl).1 "sa" rfl
        (by decide)).1,
    (getOwnerObjLabel_service_account sampleEnv (boundTo none "sa")
      (reviewOf "ConfigMap" Create "system" (boundTo none "sa")).request rfl).2
        (Or.inl (by decide)) sampleCluster⟩

/-! ## The patch documents for every key and value -/

/-- A key in which no `~` is followed by `0` or `1` is recovered from its
escaped form. -/
theorem decodePatchKey_replaceAllSlash_of_noEscape (cs : List Char)
    (h : hasPointerEscape cs = false) : decodePatchKey (replaceAllSlash cs) = cs := by
  induction cs with
  | nil => rfl
  | cons c rest ih =>
    by_cases hs : c = '/'
    · subst hs
      have hrest : hasPointerEscape rest = false := by
        simpa [hasPointerEscape] using h
      simp only [replaceAllSlash, if_true, decodePatchKey, ih hrest]
    · by_cases ht : c = '~'
      · subst ht
        cases rest with
        | nil => rfl
        | cons d rest' =>
          have hd0 : d ≠ '0' := by
            intro e; subst e; simp [hasPointerEscape] at h
          have hd1 : d ≠ '1' := by
            intro e; subst e; simp [hasPointerEscape] at h
          have hrest : hasPointerEscape (d :: rest') = false := by
            rw [hasPointerEscape] at h
            · exact h
            · intro cs' _ e; exact hd0 (List.head_eq_of_cons_eq e)
            · intro cs' _ e; exact hd1 (List.head_eq_of_cons_eq e)
          have ih' := ih hrest
          by_cases hds : d = '/'
          · subst hds
            simp only [replaceAllSlash, hs, if_false, if_true] at ih' ⊢
            rw [decodePatchKey]
            · rw [ih']
            · intro cs' _ e; simp at e
            · intro cs' _ e; simp at e
          · simp only [replaceAllSlash, hs, hds, if_false] at ih' ⊢
            rw [decodePatchKey]
            · rw [ih']
            · intro cs' _ e; exact hd1 (List.head_eq_of_cons_eq e)
            · intro cs' _ e; exact hd0 (List.head_eq_of_cons_eq e)
      · have hrest : hasPointerEscape rest = false := by
          rw [hasPointerEscape] at h
          · exact h
          · intro cs' e; exact absurd e ht
          · intro cs' e; exact absurd e ht
        simp only [replaceAllSlash, hs, if_false]
        rw [decodePatchKey]
        · rw [ih hrest]
        · intro cs' e; exact absurd e ht
        · intro cs' e; exact absurd e ht


/-- The path of the additional-label patch points at the label key whenever
no `~` of the key is followed by `0` or `1`. -/
theorem pointerTokens_labelPath_of_noEscape (key : String)
    (h : hasPointerEscape key.data = false) :
    pointerTokens (String.mk ("/metadata/labels/".data ++ replaceAllSlash key.data))
      = ["metadata", "labels", key] := by
  unfold pointerTokens
  have hs : splitSlash ("/metadata/labels/".data ++ replaceAllSlash key.data)
      = [[], "metadata".data, "labels".data, replaceAllSlash key.data] := by
    have : "/metadata/labels/".data
        = ['/','m','e','t','a','d','a','t','a','/','l','a','b','e','l','s','/'] := by
      decide
    rw [this]
    simp [splitSlash, splitSlash_replaceAllSlash]
  rw [hs]
  simp only [List.drop_succ_cons, List.drop_zero, List.map_cons, List.map_nil,
    decodePatchKey_replaceAllSlash_of_noEscape _ h]
  rfl

/-- C11, as stated, fails. A label value with a quotation mark makes both
documents invalid JSON, and for the label key `a~1b` the path of the
additional-label patch is `/metadata/labels/a~1b`, whose last token decodes
to `a/b`. -/
theorem patch_documents_unescaped :
    (decodePatch (getFirstLabelPatch sampleEnv "a\"b")).isNone = true ∧
      (decodePatch (getAdditionalLabelPatch sampleEnv "a\"b")).isNone = true ∧
      decodePatch (getAdditionalLabelPatch sampleEnvTilde "v")
        = some [[("op", .str "add"), ("path", .str "/metadata/labels/a~1b"),
            ("value", .str "v")]] ∧
      pointerTokens "/metadata/labels/a~1b" = ["metadata", "labels", "a/b"] ∧
      sampleEnvTilde.labelKey ≠ "a/b" := by
  refine ⟨by decide, by decide, rfl, by decide, by decide⟩

/-- C11, amended. For a label key and a label value without quotation mark,
backslash or control character, each of the two documents parses as a JSON
array of exactly one `add` operation: at `/metadata/labels` with the
singleton map of key and value, respectively at `/metadata/labels/` followed
by the key with every `/` replaced by `~1` with the value; that path decodes
to the label key whenever no `~` of the key is followed by `0` or `1`. -/
theorem patch_documents_valid (env : Env) (labelValue : String)
    (hkey : isPlainText env.labelKey.data = true)
    (hvalue : isPlainText labelValue.data = true) :
    decodePatch (getFirstLabelPatch env labelValue) = some
        [[("op", .str "add"), ("path", .str "/metadata/labels"),
          ("value", .obj [(env.labelKey, .str labelValue)])]] ∧
      decodePatch (getAdditionalLabelPatch env labelValue) = some
        [[("op", .str "add"),
          ("path", .str (String.mk ("/metadata/labels/".data ++ replaceAllSlash env.labelKey.data))),
          ("value", .str labelValue)]] ∧
      (hasPointerEscape env.labelKey.data = false →
        pointerTokens (String.mk ("/metadata/labels/".data ++ replaceAllSlash env.labelKey.data))
          = ["metadata", "labels", env.labelKey]) :=
  ⟨decodePatch_getFirstLabelPatch env labelValue hkey hvalue,
    decodePatch_getAdditionalLabelPatch env labelValue hkey hvalue,
    pointerTokens_labelPath_of_noEscape env.labelKey⟩

/-- Witness for C11: the documents of `TestOnMutate`, key `owner` and value
`admin`. -/
theorem patch_documents_valid_witness :
    isPlainText sampleEnv.labelKey.data = true ∧ isPlainText "admin".data = true ∧
      decodePatch (getFirstLabelPatch sampleEnv "admin") = some
        [[("op", .str "add"), ("path", .str "/metadata/labels"),
          ("value", .obj [("owner", .str "admin")])]] ∧
      decodePatch (getAdditionalLabelPatch sampleEnv "admin") = some
        [[("op", .str "add"), ("path", .str "/metadata/labels/owner"),
          ("value", .str "admin")]] :=
  ⟨by decide, by decide,
    (patch_documents_valid sampleEnv "admin" (by decide) (by decide)).1,
    (patch_documents_valid sampleEnv "admin" (by decide) (by decide)).2.1⟩

end Guardrails
